import Mathlib

/-!
# Verification of the go-appkit gRPC server toolkit

A shallow embedding, in Lean 4, of the parts of the `go-appkit` repository
that the specification's claims are about:

* the LRU cache (`lrucache` package): entries kept in recency order
  (front = most recently used), TTL expiry, metrics counters;
* the rate-limit interceptor (`grpcserver/interceptor/rate_limit_interceptor.go`):
  the engine wrapper `rateLimitHandler.handle`, the backlog protocol
  `handleBacklogProcessing`, the unary wrapper `RateLimitUnaryInterceptor`,
  and the sliding-window limiter's retry-after computation;
* the request-ID interceptor (`request_id_interceptor.go`);
* the logging interceptor's exclusion semantics (`logging_interceptor.go`);
* the interceptor-chain assembly of `grpcserver.New` (`grpc_server.go`).

Go machine integers are modelled as `Int` where signedness matters
(sizes, TTLs), and instants/durations as `Nat` nanoseconds (Go `time.Time`
is an instant after the zero time; `IsZero` corresponds to `= 0`).
Maps plus intrusive lists are modelled as association lists in recency
order.  Channels are modelled by their occupancy count, and `select`
loops by explicit event sequences.
-/

namespace GoAppkit

/-! ## LRU cache (`lrucache` package)

State of `LRUCache[K, V]`: the `lruList`/`cache` pair is modelled as a
single list of entries in recency order (head = front = most recently
used; `removeOldest` removes the last element).  The metrics collector's
counters are carried in the state: `IncHits`/`IncMisses` increment,
`AddEvictions` adds, `SetAmount` overwrites the gauge. -/

/-- Counters of the cache's `MetricsCollector`. -/
structure Metrics where
  hits : Nat
  misses : Nat
  evictions : Nat
  amount : Nat
deriving DecidableEq

/-- Model of `cacheEntry[K, V]`: `expiresAt = 0` models the zero `time.Time`
(no expiration). -/
structure Entry (K V : Type) where
  key : K
  value : V
  expiresAt : Nat
deriving DecidableEq

/-- Model of `LRUCache[K, V]`: `maxEntries` is a Go `int`, entries are in recency
order (head = most recently used). -/
structure LRUCache (K V : Type) where
  maxEntries : Int
  entries : List (Entry K V)
  metrics : Metrics
deriving DecidableEq

/-- Lookup in the `cache` map: first entry with the given key. -/
def findEntry {K V : Type} [DecidableEq K] : List (Entry K V) → K → Option (Entry K V)
  | [], _ => none
  | e :: rest, k => if e.key = k then some e else findEntry rest k

/-- Removal of the (unique) entry with the given key from the recency list. -/
def eraseEntry {K V : Type} [DecidableEq K] : List (Entry K V) → K → List (Entry K V)
  | [], _ => []
  | e :: rest, k => if e.key = k then rest else e :: eraseEntry rest k

/-- Keys of the recency list are pairwise distinct (which every cache
reachable through the API satisfies, since the Go `cache` map has unique
keys). -/
def keysUnique {K V : Type} (l : List (Entry K V)) : Prop :=
  l.Pairwise (fun a b => a.key ≠ b.key)

/-- Model of `LRUCache.removeOldest`: removes the back of `lruList` (and its map
entry) and returns it; touches no metrics. -/
def removeOldest {K V : Type} (c : LRUCache K V) : LRUCache K V × Option (Entry K V) :=
  match c.entries.getLast? with
  | none => (c, none)
  | some e => ({ c with entries := c.entries.dropLast }, some e)

/-- Model of `LRUCache.addNew`: push a fresh entry to the front; on overflow remove
the oldest and count one eviction (the Go code does not call `SetAmount`
on the overflow branch). -/
def addNew {K V : Type} (c : LRUCache K V) (key : K) (value : V) (expiresAt : Nat) :
    LRUCache K V :=
  let c1 : LRUCache K V := { c with entries := ⟨key, value, expiresAt⟩ :: c.entries }
  if (c1.entries.length : Int) ≤ c1.maxEntries then
    { c1 with metrics.amount := c1.entries.length }
  else
    match removeOldest c1 with
    | (c2, some _) => { c2 with metrics.evictions := c2.metrics.evictions + 1 }
    | (c2, none) => c2

/-- Model of `LRUCache.AddWithTTL` at instant `now`: `ttl > 0` sets
`expiresAt = now + ttl`, otherwise the entry never expires; an existing
key is moved to the front with its entry replaced. -/
def addWithTTL {K V : Type} [DecidableEq K] (c : LRUCache K V) (key : K) (value : V)
    (ttl : Int) (now : Nat) : LRUCache K V :=
  let expiresAt : Nat := if 0 < ttl then now + ttl.toNat else 0
  match findEntry c.entries key with
  | some _ => { c with entries := ⟨key, value, expiresAt⟩ :: eraseEntry c.entries key }
  | none => addNew c key value expiresAt

/-- Model of `LRUCache.get` at instant `now` (the Go code reads `time.Now()`):
a hit that is expired (`expiresAt` set and `Before(now)`, strictly) is
removed and reported as a miss; an unexpired hit is promoted to the
front. -/
def lruGet {K V : Type} [DecidableEq K] (c : LRUCache K V) (key : K)
    (incHitsAndMisses : Bool) (now : Nat) : Option V × LRUCache K V :=
  match findEntry c.entries key with
  | none =>
    (none, if incHitsAndMisses then { c with metrics.misses := c.metrics.misses + 1 } else c)
  | some e =>
    if e.expiresAt ≠ 0 ∧ e.expiresAt < now then
      let c1 : LRUCache K V := { c with entries := eraseEntry c.entries key }
      let c2 : LRUCache K V := { c1 with metrics.amount := c1.entries.length }
      (none, if incHitsAndMisses then { c2 with metrics.misses := c2.metrics.misses + 1 } else c2)
    else
      let c1 : LRUCache K V := { c with entries := e :: eraseEntry c.entries key }
      (e.value, if incHitsAndMisses then { c1 with metrics.hits := c1.metrics.hits + 1 } else c1)

/-- The eviction loop of `LRUCache.Resize`: `n` calls to `removeOldest`. -/
def evictN {K V : Type} (c : LRUCache K V) : Nat → LRUCache K V
  | 0 => c
  | n + 1 => evictN (removeOldest c).1 n

/-- Model of `LRUCache.Resize`: non-positive sizes return 0 without touching the
state; otherwise `maxEntries` is updated and, when the cache holds more
than `size` entries, the excess is evicted from the back, the amount
gauge is refreshed and the eviction counter grows by the excess.  Note
the named return: when nothing is evicted the (possibly negative)
difference is returned as-is. -/
def lruResize {K V : Type} (c : LRUCache K V) (size : Int) : LRUCache K V × Int :=
  if size ≤ 0 then (c, 0)
  else
    let c1 : LRUCache K V := { c with maxEntries := size }
    let evicted : Int := (c1.entries.length : Int) - size
    if evicted ≤ 0 then (c1, evicted)
    else
      let c2 := evictN c1 evicted.toNat
      ({ c2 with
          metrics :=
            { c2.metrics with
                amount := c2.entries.length
                evictions := c2.metrics.evictions + evicted.toNat } },
        evicted)

/-- An empty cache with capacity 5, as produced by `New(5, nil)`. -/
def emptyCache5 : LRUCache Nat Nat :=
  { maxEntries := 5, entries := [], metrics := ⟨0, 0, 0, 0⟩ }

/-- A cache holding three never-expiring entries, built through the API:
keys 1, 2, 3 added in this order (so key 3 is most recent). -/
def exampleCache3 : LRUCache Nat Nat :=
  addWithTTL (addWithTTL (addWithTTL emptyCache5 1 10 0 0) 2 20 0 0) 3 30 0 0

/-! ### Helper lemmas about the eviction loop -/

theorem removeOldest_entries {K V : Type} (c : LRUCache K V) :
    ((removeOldest c).1).entries = c.entries.dropLast := by
  unfold removeOldest
  cases h : c.entries.getLast? with
  | none =>
    have he : c.entries = [] := List.getLast?_eq_none_iff.mp h
    simp [he]
  | some e => simp

theorem removeOldest_frame {K V : Type} (c : LRUCache K V) :
    ((removeOldest c).1).metrics = c.metrics ∧ ((removeOldest c).1).maxEntries = c.maxEntries := by
  unfold removeOldest
  cases c.entries.getLast? <;> simp

theorem evictN_entries {K V : Type} (c : LRUCache K V) (n : Nat) :
    (evictN c n).entries = c.entries.take (c.entries.length - n) := by
  induction n generalizing c with
  | zero => simp [evictN]
  | succ k ih =>
    rw [evictN, ih, removeOldest_entries, List.dropLast_eq_take,
      List.take_take, List.length_take]
    congr 1
    omega

theorem evictN_frame {K V : Type} (c : LRUCache K V) (n : Nat) :
    (evictN c n).metrics = c.metrics ∧ (evictN c n).maxEntries = c.maxEntries := by
  induction n generalizing c with
  | zero => simp [evictN]
  | succ k ih =>
    rw [evictN]
    rcases removeOldest_frame c with ⟨h1, h2⟩
    rcases ih (removeOldest c).1 with ⟨h3, h4⟩
    exact ⟨h3.trans h1, h4.trans h2⟩

/-! ## Claims C10 and C3: Resize -/

/-- C10: `Resize` with a non-positive size returns 0 evictions and leaves
the whole cache state (entries, recency order, `maxEntries`, metrics
counters) unchanged. -/
theorem resize_nonpositive_noop {K V : Type} (c : LRUCache K V) (size : Int)
    (h : size ≤ 0) : lruResize c size = (c, 0) := by
  simp [lruResize, h]

/-- Witness for `resize_nonpositive_noop` at a concrete cache and size 0. -/
theorem resize_nonpositive_noop_witness :
    lruResize exampleCache3 0 = (exampleCache3, 0) :=
  resize_nonpositive_noop exampleCache3 0 (by decide)

/-- C3 counterexample: `exampleCache3` holds 3 entries; `Resize 1` evicts
2 entries (the delta between old size and new size), not `n = 1` as the
claim states: only 1 entry remains, not 2. -/
theorem resize_evicts_delta_not_n :
    exampleCache3.entries.length = 3 ∧
    (lruResize exampleCache3 1).2 = 2 ∧
    ¬((lruResize exampleCache3 1).1.entries.length = 3 - 1) := by
  refine ⟨by decide, by decide, ?_⟩
  decide

/-- C3 (amended): `resize(n)` with `0 < n <` current size evicts the
(current size − n) least-recently-used entries (the n most recent
remain), increments the eviction counter by that delta and returns it;
`resize(n)` with `n ≥` current size evicts nothing, changing neither the
entries nor the metrics. -/
theorem resize_spec {K V : Type} (c : LRUCache K V) (n : Int) (hpos : 0 < n) :
    (n < (c.entries.length : Int) →
      (lruResize c n).2 = (c.entries.length : Int) - n ∧
      (lruResize c n).1.entries = c.entries.take n.toNat ∧
      (lruResize c n).1.metrics.evictions =
        c.metrics.evictions + ((c.entries.length : Int) - n).toNat ∧
      (lruResize c n).1.maxEntries = n) ∧
    ((c.entries.length : Int) ≤ n →
      (lruResize c n).1.entries = c.entries ∧
      (lruResize c n).1.metrics = c.metrics ∧
      (lruResize c n).1.maxEntries = n) := by
  constructor
  · intro hlt
    have hnot : ¬(n ≤ 0) := by omega
    have hev : ¬((c.entries.length : Int) - n ≤ 0) := by omega
    simp only [lruResize, if_neg hnot, if_neg hev]
    have hframe := evictN_frame ({ c with maxEntries := n } : LRUCache K V)
      ((c.entries.length : Int) - n).toNat
    have hent := evictN_entries ({ c with maxEntries := n } : LRUCache K V)
      ((c.entries.length : Int) - n).toNat
    refine ⟨by trivial, ?_, ?_, ?_⟩
    · simp only [hent]
      congr 1
      omega
    · simp [hframe.1]
    · simp [hframe.2]
  · intro hle
    have hnot : ¬(n ≤ 0) := by omega
    have hev : (c.entries.length : Int) - n ≤ 0 := by omega
    simp [lruResize, if_neg hnot, hev]

/-- Witness for `resize_spec`: `exampleCache3` (3 entries) resized to 2
evicts one entry, keeps the two most recent, and bumps the eviction
counter by 1. -/
theorem resize_spec_witness :
    (lruResize exampleCache3 2).2 = 1 ∧
    (lruResize exampleCache3 2).1.entries = exampleCache3.entries.take 2 ∧
    (lruResize exampleCache3 2).1.metrics.evictions = 1 := by
  have h := (resize_spec exampleCache3 2 (by decide)).1 (by decide)
  exact ⟨h.1.trans (by decide), h.2.1, h.2.2.1.trans (by decide)⟩

/-! ## Claim C6: get and TTL expiry -/

theorem findEntry_eq_none_of_forall {K V : Type} [DecidableEq K]
    (l : List (Entry K V)) (k : K) (h : ∀ e ∈ l, e.key ≠ k) :
    findEntry l k = none := by
  induction l with
  | nil => rfl
  | cons a rest ih =>
    have ha : a.key ≠ k := h a (by simp)
    simp only [findEntry, if_neg ha]
    exact ih (fun e he => h e (by simp [he]))

theorem findEntry_eraseEntry_self {K V : Type} [DecidableEq K]
    (l : List (Entry K V)) (k : K) (hu : keysUnique l) :
    findEntry (eraseEntry l k) k = none := by
  induction l with
  | nil => rfl
  | cons a rest ih =>
    rcases List.pairwise_cons.mp hu with ⟨ha, hrest⟩
    by_cases hk : a.key = k
    · simp only [eraseEntry, if_pos hk]
      refine findEntry_eq_none_of_forall rest k (fun e he => ?_)
      have hne : a.key ≠ e.key := ha e he
      rw [hk] at hne
      exact hne.symm
    · simp only [eraseEntry, if_neg hk, findEntry, if_neg hk]
      exact ih hrest

/-- C6 (amended): at every access at instant `now`, the value is reported
present iff the entry exists and its expiry is unset or has not yet
passed — `expiresAt = 0 ∨ now ≤ expiresAt`, so an entry expiring exactly
at `now` is still reported present; an entry whose expiry is strictly in
the past is removed from the cache by the access. -/
theorem lru_get_presence {K V : Type} [DecidableEq K] (c : LRUCache K V) (key : K)
    (inc : Bool) (now : Nat) :
    ((lruGet c key inc now).1.isSome ↔
      ∃ e, findEntry c.entries key = some e ∧ (e.expiresAt = 0 ∨ now ≤ e.expiresAt)) ∧
    (∀ e, findEntry c.entries key = some e → e.expiresAt ≠ 0 → e.expiresAt < now →
      keysUnique c.entries →
      findEntry ((lruGet c key inc now).2).entries key = none) := by
  constructor
  · cases hf : findEntry c.entries key with
    | none => simp [lruGet, hf]
    | some e =>
      by_cases hx : e.expiresAt ≠ 0 ∧ e.expiresAt < now
      · simp only [lruGet, hf, if_pos hx]
        simp only [Option.isSome_none, Bool.false_eq_true, false_iff]
        rintro ⟨e', he', hcond⟩
        obtain rfl : e = e' := Option.some_inj.mp he'
        rcases hcond with h0 | hle
        · exact hx.1 h0
        · omega
      · simp only [lruGet, hf, if_neg hx]
        simp only [Option.isSome_some, true_iff]
        refine ⟨e, rfl, ?_⟩
        by_cases h0 : e.expiresAt = 0
        · exact Or.inl h0
        · exact Or.inr (by omega)
  · intro e hf hx0 hxlt hu
    have hx : e.expiresAt ≠ 0 ∧ e.expiresAt < now := ⟨hx0, hxlt⟩
    simp only [lruGet, hf, if_pos hx]
    cases inc <;> simpa using findEntry_eraseEntry_self c.entries key hu

/-- A cache holding one entry that expires at instant 5, built through the
API (`AddWithTTL` with TTL 5 at instant 0). -/
def expiringCache : LRUCache Nat Nat := addWithTTL emptyCache5 1 10 5 0

/-- C6 counterexample: at `now = 5` the entry of `expiringCache` reaches
its expiry instant exactly; the code still reports it present (`Before`
is strict), while the claim's "expiry strictly later than the current
time" would report it absent. -/
theorem lru_get_boundary_counterexample :
    findEntry expiringCache.entries 1 = some ⟨1, 10, 5⟩ ∧
    (lruGet expiringCache 1 true 5).1 = some 10 ∧
    ¬((5 : Nat) = 0 ∨ 5 < 5) := by
  refine ⟨by decide, by decide, by decide⟩

/-- Witness for `lru_get_presence`: on `expiringCache` at `now = 7` the
entry (expiring at 5) is reported absent and removed by the access. -/
theorem lru_get_presence_witness :
    ¬(lruGet expiringCache 1 true 7).1.isSome ∧
    findEntry ((lruGet expiringCache 1 true 7).2).entries 1 = none := by
  have h := lru_get_presence expiringCache 1 true 7
  constructor
  · rw [h.1]
    rintro ⟨e, he, hcond⟩
    have : e = ⟨1, 10, 5⟩ := by
      have hf : findEntry expiringCache.entries 1 = some ⟨1, 10, 5⟩ := by decide
      rw [hf] at he
      exact (Option.some_inj.mp he).symm
    subst this
    rcases hcond with h0 | hle
    · exact absurd h0 (by decide)
    · exact absurd hle (by decide)
  · refine h.2 ⟨1, 10, 5⟩ (by decide) (by decide) (by decide) ?_
    have he : expiringCache.entries = [⟨1, 10, 5⟩] := by decide
    unfold keysUnique
    rw [he]
    exact List.pairwise_singleton _ _

/-! ## Rate-limit interceptor (`rate_limit_interceptor.go`)

The engine wrapper `rateLimitHandler.handle` and the backlog protocol
`handleBacklogProcessing`.  The per-key backlog channel is modelled by
its occupancy count, and each firing of the `select` inside the backlog
loop by an explicit event; an event sequence that never reaches a
decisive arm leaves the call still waiting (the Go code blocks). -/

/-- Result of the configured `RateLimitGetKeyFunc` for the current call. -/
inductive KeyFnResult where
  | failure (key : String)
  | ok (key : String) (bypass : Bool)
deriving DecidableEq

/-- Result of one `limiter.Allow` call. -/
inductive AllowResult where
  | failure
  | admitted
  | rejected (retryAfter : Nat)
deriving DecidableEq

/-- What the `Allow` re-check inside the backlog loop returns. -/
inductive RetryOutcome where
  | failure
  | admitted
  | rejectedAgain (retryAfter : Nat)
deriving DecidableEq

/-- One firing of the `select` inside `handleBacklogProcessing`: which arm
wins and, for the retry-timer arm, what `Allow` then returns. -/
inductive BacklogEvent where
  | retryTimer (r : RetryOutcome)
  | backlogTimeoutFired
  | ctxCancelled
deriving DecidableEq

/-- The call's view of its per-key backlog channel: current occupancy and
the local `backlogged` flag. -/
structure SlotState where
  chanLen : Nat
  backlogged : Bool
deriving DecidableEq

/-- Model of `freeBacklogSlotIfNeeded`: when `backlogged`, non-blocking receive of
one token (succeeds iff the channel is non-empty) and clear the flag. -/
def freeBacklogSlotIfNeeded (s : SlotState) : SlotState :=
  if s.backlogged then
    if 0 < s.chanLen then { chanLen := s.chanLen - 1, backlogged := false } else s
  else s

/-- How a call leaves the backlog protocol. -/
inductive BacklogOutcome where
  | onRejectFull
  | onErrorCtx
  | onRejectTimeout
  | onErrorAllow
  | handlerRun
  | stillWaiting
deriving DecidableEq

/-- The `for { select { ... } }` loop of `handleBacklogProcessing`.  Every
decisive arm calls `freeBacklogSlotIfNeeded` explicitly and then returns,
running the deferred `freeBacklogSlotIfNeeded` a second time. -/
def backlogLoop : List BacklogEvent → SlotState → BacklogOutcome × SlotState
  | [], s => (.stillWaiting, s)
  | .ctxCancelled :: _, s =>
    (.onErrorCtx, freeBacklogSlotIfNeeded (freeBacklogSlotIfNeeded s))
  | .backlogTimeoutFired :: _, s =>
    (.onRejectTimeout, freeBacklogSlotIfNeeded (freeBacklogSlotIfNeeded s))
  | .retryTimer .failure :: _, s =>
    (.onErrorAllow, freeBacklogSlotIfNeeded (freeBacklogSlotIfNeeded s))
  | .retryTimer .admitted :: _, s =>
    (.handlerRun, freeBacklogSlotIfNeeded (freeBacklogSlotIfNeeded s))
  | .retryTimer (.rejectedAgain _) :: rest, s => backlogLoop rest s

/-- Model of `rateLimitHandler.handleBacklogProcessing`: non-blocking try-send of a
token into the per-key channel of capacity `capacity`; when the channel
is full, reject at once without waiting; otherwise wait, driven by
`events`. -/
def handleBacklogProcessing (capacity chanLen : Nat) (events : List BacklogEvent) :
    BacklogOutcome × SlotState :=
  if chanLen < capacity then
    backlogLoop events { chanLen := chanLen + 1, backlogged := true }
  else
    (.onRejectFull, { chanLen := chanLen, backlogged := false })

/-- The first decisive `select` arm in an event sequence; re-check
rejections keep the call waiting and are skipped. -/
def firstExitEvent : List BacklogEvent → Option BacklogEvent
  | [] => none
  | .retryTimer (.rejectedAgain _) :: rest => firstExitEvent rest
  | e :: _ => some e

theorem freeBacklogSlot_idem (s : SlotState) :
    freeBacklogSlotIfNeeded (freeBacklogSlotIfNeeded s) = freeBacklogSlotIfNeeded s := by
  rcases s with ⟨n, b⟩
  cases b with
  | false => rfl
  | true =>
    by_cases hn : 0 < n
    · simp [freeBacklogSlotIfNeeded, hn]
    · simp [freeBacklogSlotIfNeeded, hn]

theorem backlogLoop_exits (events : List BacklogEvent) (n : Nat) :
    backlogLoop events ⟨n + 1, true⟩ =
      (match firstExitEvent events with
       | none => (.stillWaiting, ⟨n + 1, true⟩)
       | some .ctxCancelled => (.onErrorCtx, ⟨n, false⟩)
       | some .backlogTimeoutFired => (.onRejectTimeout, ⟨n, false⟩)
       | some (.retryTimer .failure) => (.onErrorAllow, ⟨n, false⟩)
       | some (.retryTimer .admitted) => (.handlerRun, ⟨n, false⟩)
       | some (.retryTimer (.rejectedAgain _)) => (.stillWaiting, ⟨n + 1, true⟩)) := by
  have hfree : freeBacklogSlotIfNeeded (freeBacklogSlotIfNeeded ⟨n + 1, true⟩) =
      ⟨n, false⟩ := by
    simp [freeBacklogSlotIfNeeded]
  induction events with
  | nil => rfl
  | cons e rest ih =>
    cases e with
    | ctxCancelled => simp [backlogLoop, firstExitEvent, hfree]
    | backlogTimeoutFired => simp [backlogLoop, firstExitEvent, hfree]
    | retryTimer r =>
      cases r with
      | failure => simp [backlogLoop, firstExitEvent, hfree]
      | admitted => simp [backlogLoop, firstExitEvent, hfree]
      | rejectedAgain ra => simpa [backlogLoop, firstExitEvent] using ih

/-- C5: a rejected call entering the backlog protocol is rejected
immediately when the per-key channel is full; otherwise it occupies a
slot and waits: context cancellation exits through `onError`, backlog
timeout through `onReject`, an admitting `Allow` re-check runs the
handler, an `Allow` failure exits through `onError`, and on every one of
these exit paths the slot is released (occupancy and flag restored);
releasing is idempotent. -/
theorem backlog_protocol_spec (capacity chanLen : Nat) (events : List BacklogEvent) :
    (capacity ≤ chanLen →
      handleBacklogProcessing capacity chanLen events =
        (.onRejectFull, ⟨chanLen, false⟩)) ∧
    (chanLen < capacity →
      handleBacklogProcessing capacity chanLen events =
        (match firstExitEvent events with
         | none => (.stillWaiting, ⟨chanLen + 1, true⟩)
         | some .ctxCancelled => (.onErrorCtx, ⟨chanLen, false⟩)
         | some .backlogTimeoutFired => (.onRejectTimeout, ⟨chanLen, false⟩)
         | some (.retryTimer .failure) => (.onErrorAllow, ⟨chanLen, false⟩)
         | some (.retryTimer .admitted) => (.handlerRun, ⟨chanLen, false⟩)
         | some (.retryTimer (.rejectedAgain _)) => (.stillWaiting, ⟨chanLen + 1, true⟩))) ∧
    (∀ s, freeBacklogSlotIfNeeded (freeBacklogSlotIfNeeded s) = freeBacklogSlotIfNeeded s) := by
  refine ⟨?_, ?_, freeBacklogSlot_idem⟩
  · intro h
    rw [handleBacklogProcessing, if_neg (by omega)]
  · intro h
    rw [handleBacklogProcessing, if_pos h]
    exact backlogLoop_exits events chanLen

/-- Witness for `backlog_protocol_spec`: capacity 1, empty channel; one
re-check rejection then context cancellation exits through `onError` with
the slot released. -/
theorem backlog_protocol_spec_witness :
    handleBacklogProcessing 1 0 [.retryTimer (.rejectedAgain 3), .ctxCancelled] =
      (.onErrorCtx, ⟨0, false⟩) := by
  have h := (backlog_protocol_spec 1 0
    [.retryTimer (.rejectedAgain 3), .ctxCancelled]).2.1 (by decide)
  simpa [firstExitEvent] using h

/-! ## Engine wrapper: `newRateLimitHandler` and `rateLimitHandler.handle` -/

/-- The options collected by `newRateLimitHandler` that drive the engine
wrapper's control flow (the algorithm choice and key-function details do
not affect it). -/
structure RateLimitOpts where
  hasGetKeyFn : Bool
  dryRun : Bool
  backlogLimit : Int
  backlogTimeout : Nat
deriving DecidableEq

/-- The constructed `rateLimitHandler`.  `backlogLimit = 0` makes
`makeGrpcRateLimitBacklogSlotsProvider` return a nil provider, i.e.
backlogging disabled (`h.getBacklogSlots == nil`). -/
structure RLHandlerCfg where
  hasGetKey : Bool
  dryRun : Bool
  backlogLimit : Int
  backlogTimeout : Nat
deriving DecidableEq

/-- Model of `newRateLimitHandler`: a negative backlog limit is a construction
error; dry-run forces the backlog limit to 0 before the backlog-slots
provider is built. -/
def newRateLimitHandlerCfg (opts : RateLimitOpts) : Option RLHandlerCfg :=
  if opts.backlogLimit < 0 then none
  else
    let effBacklogLimit := if opts.dryRun then 0 else opts.backlogLimit
    some { hasGetKey := opts.hasGetKeyFn
           dryRun := opts.dryRun
           backlogLimit := effBacklogLimit
           backlogTimeout := opts.backlogTimeout }

/-- What `rateLimitHandler.handle` does with a call. -/
inductive RLOutcome where
  | onErrorKey
  | handlerBypass
  | onErrorAllow
  | handlerAdmitted
  | handlerDryRun
  | onRejectNoBacklog
  | backlog (o : BacklogOutcome)
deriving DecidableEq

/-- Model of `rateLimitHandler.handle`: `keyRes` is what the key function returns
(consulted only when one is configured), `allowRes` what the first
`limiter.Allow` call returns, `chanLen` the current occupancy of the
per-key backlog channel, and `events` drives the backlog protocol. -/
def rlHandle (cfg : RLHandlerCfg) (keyRes : KeyFnResult) (allowRes : AllowResult)
    (chanLen : Nat) (events : List BacklogEvent) : RLOutcome :=
  let afterKey :=
    match allowRes with
    | .failure => RLOutcome.onErrorAllow
    | .admitted => RLOutcome.handlerAdmitted
    | .rejected _ =>
      if cfg.dryRun then RLOutcome.handlerDryRun
      else if cfg.backlogLimit = 0 then RLOutcome.onRejectNoBacklog
      else RLOutcome.backlog (handleBacklogProcessing cfg.backlogLimit.toNat chanLen events).1
  if cfg.hasGetKey then
    match keyRes with
    | .failure _ => RLOutcome.onErrorKey
    | .ok _ bypass => if bypass then RLOutcome.handlerBypass else afterKey
  else afterKey

/-- C4: with `dryRun = true`, construction forces the backlog limit to 0,
and the engine never rejects or blocks a call: no outcome is
`onRejectNoBacklog` or a backlog outcome, and a not-admitted `Allow`
check on a non-bypassed call passes the call to the handler after the
dry-run log. -/
theorem dry_run_never_rejects (opts : RateLimitOpts) (cfg : RLHandlerCfg)
    (hdry : opts.dryRun = true) (hcfg : newRateLimitHandlerCfg opts = some cfg) :
    cfg.backlogLimit = 0 ∧
    ∀ keyRes allowRes chanLen events,
      rlHandle cfg keyRes allowRes chanLen events ≠ .onRejectNoBacklog ∧
      (∀ b, rlHandle cfg keyRes allowRes chanLen events ≠ .backlog b) ∧
      (∀ r, allowRes = .rejected r →
        (cfg.hasGetKey = false ∨ ∃ k, keyRes = .ok k false) →
        rlHandle cfg keyRes allowRes chanLen events = .handlerDryRun) := by
  have hshape : cfg = ⟨opts.hasGetKeyFn, true, 0, opts.backlogTimeout⟩ := by
    unfold newRateLimitHandlerCfg at hcfg
    by_cases hneg : opts.backlogLimit < 0
    · simp [hneg] at hcfg
    · simp [hneg, hdry] at hcfg
      exact hcfg.symm
  subst hshape
  refine ⟨rfl, ?_⟩
  intro keyRes allowRes chanLen events
  refine ⟨?_, ?_, ?_⟩
  · cases hk : opts.hasGetKeyFn <;> cases keyRes <;> cases allowRes <;>
      simp [rlHandle, hdry] <;> split <;> simp
  · intro b
    cases hk : opts.hasGetKeyFn <;> cases keyRes <;> cases allowRes <;>
      simp [rlHandle, hdry] <;> split <;> simp
  · rintro r rfl hnb
    rcases hnb with hfalse | ⟨k, rfl⟩
    · simp at hfalse
      simp [rlHandle, hfalse, hdry]
    · simp [rlHandle, hdry]

/-- Witness for `dry_run_never_rejects`: a dry-run configuration with a
configured backlog limit of 7 yields an effective limit of 0, and a
rejected, non-bypassed call still reaches the handler. -/
theorem dry_run_never_rejects_witness :
    ({ hasGetKey := true, dryRun := true, backlogLimit := 0, backlogTimeout := 100 }
        : RLHandlerCfg).backlogLimit = 0 ∧
    rlHandle { hasGetKey := true, dryRun := true, backlogLimit := 0, backlogTimeout := 100 }
      (.ok "k" false) (.rejected 5) 0 [] = .handlerDryRun := by
  have h := dry_run_never_rejects
    { hasGetKeyFn := true, dryRun := true, backlogLimit := 7, backlogTimeout := 100 }
    { hasGetKey := true, dryRun := true, backlogLimit := 0, backlogTimeout := 100 }
    rfl (by decide)
  exact ⟨h.1, (h.2 (.ok "k" false) (.rejected 5) 0 []).2.2 5 rfl (Or.inr ⟨"k", rfl⟩)⟩

/-! ## `RateLimitUnaryInterceptor`: the unary wrapper around `handle` -/

/-- Whether an outcome of `handle` runs the wrapped continuation. -/
def outcomeRunsHandler : RLOutcome → Bool
  | .handlerBypass => true
  | .handlerAdmitted => true
  | .handlerDryRun => true
  | .backlog .handlerRun => true
  | _ => false

/-- An error surfaced to the caller of the unary interceptor. -/
inductive RLUnaryErr where
  | engine (o : RLOutcome)
  | handler (e : String)
deriving DecidableEq

/-- One call through the interceptor returned by
`RateLimitUnaryInterceptor`.  `resp i` and `herr i` are the response and
error of the i-th invocation of the wrapped gRPC handler (0-based).
The Go wrapper first calls `rlHandler.handle` with a continuation that
invokes the handler and discards its response; when `handle` returns a
nil error it then invokes the handler a second time and returns that
result.  The result is `none` when the call blocks forever in the
backlog, otherwise `some (response, error, handler invocation count)`. -/
def rateLimitUnaryCall {α : Type} (cfg : RLHandlerCfg) (keyRes : KeyFnResult)
    (allowRes : AllowResult) (chanLen : Nat) (events : List BacklogEvent)
    (resp : Nat → α) (herr : Nat → Option String) :
    Option (Option α × Option RLUnaryErr × Nat) :=
  let o := rlHandle cfg keyRes allowRes chanLen events
  if o = .backlog .stillWaiting then none
  else if outcomeRunsHandler o then
    match herr 0 with
    | some e => some (none, some (.handler e), 1)
    | none => some (some (resp 1), (herr 1).map .handler, 2)
  else
    some (none, some (.engine o), 0)

/-- C1: evaluated at an admitted unary call (no key function configured,
`Allow` admits, handler succeeds), the interceptor invokes the wrapped
handler twice, not once: the response of invocation 0 is discarded and
the response of invocation 1 is returned. -/
theorem unary_admitted_double_invocation :
    rateLimitUnaryCall (α := Nat) ⟨false, false, 0, 100⟩ (.ok "" false) .admitted 0 []
        (fun i => i) (fun _ => none) = some (some 1, none, 2) ∧
    (2 : Nat) ≠ 1 := by
  exact ⟨rfl, by decide⟩

/-! ## Sliding-window limiter: retry-after (`grpcSlidingWindowLimiter.Allow`) -/

/-- Go `Time.Truncate`: round the instant down to a multiple of `d` since
the zero time; a non-positive `d` (here `d = 0`) leaves `t` unchanged. -/
def timeTruncate (t d : Nat) : Nat := if d = 0 then t else d * (t / d)

/-- Model of `grpcSlidingWindowLimiter.Allow` at instant `now`: pass the per-key
window's verdict through; on rejection, retry after the next window
boundary, `now.Truncate(duration).Add(duration).Sub(now)`. -/
def slidingWindowAllow (windowAdmits : Bool) (duration now : Nat) : Bool × Nat :=
  if windowAdmits then (true, 0)
  else (false, timeTruncate now duration + duration - now)

/-- C9: on rejection with a positive window length, the returned
retry-after equals `duration - (now mod duration)`, the time remaining
until the next window boundary. -/
theorem sliding_window_retry_after (duration now : Nat) (h : 0 < duration) :
    (slidingWindowAllow false duration now).2 = duration - now % duration := by
  have hd : duration ≠ 0 := by omega
  simp only [slidingWindowAllow, timeTruncate, if_neg hd, Bool.false_eq_true, if_false]
  have hdm := Nat.div_add_mod now duration
  have hlt : now % duration < duration := Nat.mod_lt now h
  omega

/-- Witness for `sliding_window_retry_after` at `duration = 10`,
`now = 23`. -/
theorem sliding_window_retry_after_witness :
    (slidingWindowAllow false 10 23).2 = 10 - 23 % 10 :=
  sliding_window_retry_after 10 23 (by decide)

/-! ## Interceptor-chain assembly (`grpcserver.New`) -/

/-- The interceptors `New` chains: the five canonical ones, and the
user-supplied ones identified by their position in the option list. -/
inductive InterceptorTag where
  | callStartTime
  | requestID
  | logging
  | recovery
  | metrics
  | user (i : Nat)
deriving DecidableEq

/-- The canonical chain `New` builds first, in source order. -/
def canonicalInterceptors : List InterceptorTag :=
  [.callStartTime, .requestID, .logging, .recovery, .metrics]

/-- The unary chain `New` registers with the gRPC server:
`grpc.ChainUnaryInterceptor` is called iff the combined list
`unaryInterceptors` is non-empty. -/
def registeredUnaryChain (userUnary : List Nat) : Option (List InterceptorTag) :=
  let chain := canonicalInterceptors ++ userUnary.map .user
  if 0 < chain.length then some chain else none

/-- The stream chain `New` registers: `grpc.ChainStreamInterceptor` is
called iff `opts.streamInterceptors` — the user-supplied list alone — is
non-empty. -/
def registeredStreamChain (userStream : List Nat) : Option (List InterceptorTag) :=
  let chain := canonicalInterceptors ++ userStream.map .user
  if 0 < userStream.length then some chain else none

/-- C2: evaluated at a server built with no user-supplied interceptors,
the unary chain is registered and consists of the five canonical
interceptors, but no stream chain is registered at all; the unary chain
is always canonical-then-user. -/
theorem stream_chain_not_registered_without_user_interceptors :
    registeredUnaryChain [] = some canonicalInterceptors ∧
    registeredStreamChain [] = none ∧
    (∀ us : List Nat,
      registeredUnaryChain us = some (canonicalInterceptors ++ us.map .user)) := by
  refine ⟨rfl, rfl, fun us => ?_⟩
  simp [registeredUnaryChain, canonicalInterceptors]

/-! ## Request-ID interceptor (`request_id_interceptor.go`) -/

/-- What `RequestIDServerUnaryInterceptor` publishes to the context and
the response headers. -/
structure RequestIDResult where
  ctxRequestID : String
  ctxInternalRequestID : String
  headerRequestID : String
  headerInternalRequestID : String
deriving DecidableEq

/-- One call through `RequestIDServerUnaryInterceptor`.  `inboundMD` is
the list of `x-request-id` values in the incoming metadata (`none` when
the call carries no metadata); `mintedID` and `mintedInternalID` are the
identifiers `xid.New().String()` produces at the two generation sites. -/
def requestIDInterceptorRun (inboundMD : Option (List String))
    (mintedID mintedInternalID : String) : RequestIDResult :=
  let fromMD :=
    match inboundMD with
    | some l => l.headD ""
    | none => ""
  let requestID := if fromMD = "" then mintedID else fromMD
  { ctxRequestID := requestID
    ctxInternalRequestID := mintedInternalID
    headerRequestID := requestID
    headerInternalRequestID := mintedInternalID }

/-- C7 counterexample: a request that presents `x-request-id` with the
empty string as its value is not adopted — the interceptor mints a fresh
identifier instead, so the published request ID differs from the inbound
value. -/
theorem request_id_empty_inbound_not_adopted :
    (requestIDInterceptorRun (some [""]) "m1" "m2").ctxRequestID = "m1" ∧
    (requestIDInterceptorRun (some [""]) "m1" "m2").headerRequestID = "m1" ∧
    "m1" ≠ "" := by
  exact ⟨rfl, rfl, by decide⟩

/-- C7 (amended): the interceptor adopts the first inbound `x-request-id`
value when it is present and non-empty, and mints a new identifier
otherwise; the adopted or minted value is published unchanged to both
the context and the response header; and a fresh `x-int-request-id` is
always minted (even when the caller supplied an external request ID) and
published to the context and the response header. -/
theorem request_id_spec (inboundMD : Option (List String)) (mintedID mintedInternalID : String) :
    (∀ v rest, inboundMD = some (v :: rest) → v ≠ "" →
      (requestIDInterceptorRun inboundMD mintedID mintedInternalID).ctxRequestID = v ∧
      (requestIDInterceptorRun inboundMD mintedID mintedInternalID).headerRequestID = v) ∧
    ((inboundMD = none ∨ inboundMD = some [] ∨ (∃ rest, inboundMD = some ("" :: rest))) →
      (requestIDInterceptorRun inboundMD mintedID mintedInternalID).ctxRequestID = mintedID ∧
      (requestIDInterceptorRun inboundMD mintedID mintedInternalID).headerRequestID = mintedID) ∧
    (requestIDInterceptorRun inboundMD mintedID mintedInternalID).ctxInternalRequestID
      = mintedInternalID ∧
    (requestIDInterceptorRun inboundMD mintedID mintedInternalID).headerInternalRequestID
      = mintedInternalID := by
  refine ⟨?_, ?_, rfl, rfl⟩
  · rintro v rest rfl hv
    simp [requestIDInterceptorRun, hv]
  · rintro (rfl | rfl | ⟨rest, rfl⟩) <;> simp [requestIDInterceptorRun]

/-- Witness for `request_id_spec`: inbound value "abc" is adopted for
both the context and the response header, while the internal request ID
is freshly minted. -/
theorem request_id_spec_witness :
    (requestIDInterceptorRun (some ["abc"]) "m1" "m2").ctxRequestID = "abc" ∧
    (requestIDInterceptorRun (some ["abc"]) "m1" "m2").headerRequestID = "abc" ∧
    (requestIDInterceptorRun (some ["abc"]) "m1" "m2").ctxInternalRequestID = "m2" := by
  have h := request_id_spec (some ["abc"]) "m1" "m2"
  have ha := h.1 "abc" [] rfl (by decide)
  exact ⟨ha.1, ha.2, h.2.2.1⟩

/-! ## Logging interceptor: exclusion semantics (`logging_interceptor.go`) -/

/-- gRPC status codes relevant to the logging decision. -/
inductive GrpcCode where
  | ok
  | canceled
  | internalCode
  | resourceExhausted
  | unknownCode
deriving DecidableEq

/-- Model of `status.Code(err)`: a nil handler error maps to `OK`. -/
def statusCode : Option GrpcCode → GrpcCode
  | none => .ok
  | some c => c

/-- Model of `isLoggingDisabled`: linear scan of `excludedMethods` for an exact
match of the full method name. -/
def isLoggingDisabled (fullMethod : String) (excludedMethods : List String) : Bool :=
  excludedMethods.contains fullMethod

/-- From `logCallCompletion`: the finish entry is emitted iff the method
is not excluded or the resolved status code is not OK
(`!noLog || grpcCode != codes.OK`). -/
def finishLogEmitted (excludedMethods : List String) (fullMethod : String)
    (callErr : Option GrpcCode) : Bool :=
  !(isLoggingDisabled fullMethod excludedMethods) || decide (statusCode callErr ≠ .ok)

/-- From the interceptor body: the "gRPC call started" entry is emitted
iff `callStart` is configured and the method is not excluded
(`opts.callStart && !noLog`). -/
def startLogEmitted (callStart : Bool) (excludedMethods : List String)
    (fullMethod : String) : Bool :=
  callStart && !(isLoggingDisabled fullMethod excludedMethods)

/-- C8: for an excluded method the finish entry is emitted iff the call
completed with a non-OK status code, and the "started" entry is never
emitted, even with `callStart` enabled; for a non-excluded method the
finish entry is always emitted. -/
theorem logging_exclusion_semantics (excludedMethods : List String) (fullMethod : String)
    (callErr : Option GrpcCode) (callStart : Bool) :
    (isLoggingDisabled fullMethod excludedMethods = true →
      (finishLogEmitted excludedMethods fullMethod callErr = true ↔
        statusCode callErr ≠ .ok) ∧
      startLogEmitted callStart excludedMethods fullMethod = false) ∧
    (isLoggingDisabled fullMethod excludedMethods = false →
      finishLogEmitted excludedMethods fullMethod callErr = true) := by
  constructor
  · intro hex
    constructor
    · simp [finishLogEmitted, hex]
    · simp [startLogEmitted, hex]
  · intro hex
    simp [finishLogEmitted, hex]

/-- Witness for `logging_exclusion_semantics`: the excluded method
"/svc/m" with an `Internal` error still logs the finish entry and never
logs the start entry; the non-excluded method "/svc/other" always logs
the finish entry. -/
theorem logging_exclusion_semantics_witness :
    finishLogEmitted ["/svc/m"] "/svc/m" (some .internalCode) = true ∧
    startLogEmitted true ["/svc/m"] "/svc/m" = false ∧
    finishLogEmitted ["/svc/m"] "/svc/other" none = true := by
  have h1 := (logging_exclusion_semantics ["/svc/m"] "/svc/m" (some .internalCode) true).1
    (by decide)
  have h2 := (logging_exclusion_semantics ["/svc/m"] "/svc/other" none true).2 (by decide)
  exact ⟨h1.1.mpr (by decide), h1.2, h2⟩

end GoAppkit
